import Mathlib

/-! Verification of the Archive Builder of `sync-desktop-poc`
(`src/src-tauri/src/lib.rs`, command `export_project_zip`).

The Rust command receives a destination path and an ordered list of
`ZipFileEntry` values, creates the destination file, opens a
`zip::ZipWriter` over it with fixed `SimpleFileOptions`
(`CompressionMethod::Stored`, `unix_permissions(0o755)`), and for each
entry starts a member named by `entry.path`, then, if
`entry.source_path` is `Some`, stream-copies the referenced file's
bytes into the member; otherwise, if `entry.content` is `Some`, writes
the UTF-8 bytes of the text; otherwise writes nothing.  Any failure
aborts the build with a formatted error string.

The shallow embedding below models the filesystem as an environment
`Env`: whether `File::create` on the destination succeeds, and for each
source path either the file's full byte content or the cause string of
an open failure.  The zip writer is modelled by the list of members it
has emitted so far plus the member currently open.  `export_project_zip`
returns, like the Rust function, either success or the formatted error
string; alongside the error we keep the members that had already been
written to the (now invalid) destination file, which models the partial
archive left on disk.
-/

namespace SyncDesktopPoc

/-- `zip::CompressionMethod`, restricted to the variants relevant here. -/
inductive CompressionMethod where
  | Stored
  | Deflated
deriving DecidableEq, Repr

/-- `zip::write::SimpleFileOptions`: the per-member options the builder
passes to `start_file`. -/
structure SimpleFileOptions where
  compression_method : CompressionMethod
  unix_permissions : Option Nat
deriving DecidableEq, Repr

/-- `SimpleFileOptions::default()`: Deflate compression, no explicit
unix permissions. -/
def SimpleFileOptions.default : SimpleFileOptions :=
  { compression_method := CompressionMethod.Deflated, unix_permissions := none }

/-- The fixed options value built in `export_project_zip`:
`SimpleFileOptions::default().compression_method(Stored).unix_permissions(0o755)`. -/
def options : SimpleFileOptions :=
  { SimpleFileOptions.default with
      compression_method := CompressionMethod.Stored
      unix_permissions := some 0o755 }

/-- The deserialized input structure `ZipFileEntry` of the command. -/
structure ZipFileEntry where
  path : String
  content : Option String
  source_path : Option String
deriving DecidableEq, Repr

/-- One named member of the output archive: its name, the options it
was started with, and its decompressed byte content (bytes as `Nat`). -/
structure ZipMember where
  name : String
  opts : SimpleFileOptions
  data : List Nat
deriving DecidableEq, Repr

/-- The state of `zip::ZipWriter`: members already finished, in emission
order, and the member currently open for writing (if any). -/
structure ZipWriter where
  done : List ZipMember
  current : Option ZipMember
deriving DecidableEq, Repr

/-- `ZipWriter::new(file)`: no members yet. -/
def ZipWriter.new : ZipWriter := { done := [], current := none }

/-- All members the writer has started, in order (the finished ones
followed by the currently open one).  This is what the destination file
holds, whether or not the build later fails. -/
def ZipWriter.allMembers (w : ZipWriter) : List ZipMember :=
  w.done ++ w.current.toList

/-- `zip.start_file(name, options)`: finishes the member currently open
(if any) and opens a fresh, empty member with the given name and
options. -/
def ZipWriter.start_file (w : ZipWriter) (name : String)
    (o : SimpleFileOptions) : ZipWriter :=
  { done := w.allMembers, current := some { name := name, opts := o, data := [] } }

/-- Writing bytes into the currently open member (`zip.write_all` for
inline text, and the write half of `std::io::copy` for streamed
files). -/
def ZipWriter.write_all (w : ZipWriter) (bytes : List Nat) : ZipWriter :=
  { done := w.done
    current := w.current.map fun m => { m with data := m.data ++ bytes } }

/-- `zip.finish()`: closes the currently open member and returns the
finalized archive's member list. -/
def ZipWriter.finish (w : ZipWriter) : List ZipMember :=
  w.allMembers

/-- UTF-8 encoding of one Unicode scalar value, as the Rust `String`
byte representation uses (`content.as_bytes()`). -/
def utf8EncodeChar (c : Char) : List Nat :=
  let n := c.toNat
  if n < 0x80 then [n]
  else if n < 0x800 then
    [0xC0 ||| (n >>> 6), 0x80 ||| (n &&& 0x3F)]
  else if n < 0x10000 then
    [0xE0 ||| (n >>> 12), 0x80 ||| ((n >>> 6) &&& 0x3F), 0x80 ||| (n &&& 0x3F)]
  else
    [0xF0 ||| (n >>> 18), 0x80 ||| ((n >>> 12) &&& 0x3F),
     0x80 ||| ((n >>> 6) &&& 0x3F), 0x80 ||| (n &&& 0x3F)]

/-- The UTF-8 bytes of a string: what `content.as_bytes()` yields. -/
def utf8Bytes (s : String) : List Nat :=
  s.data.flatMap utf8EncodeChar

/-- The filesystem environment of one build invocation: whether
`File::create(zip_path)` succeeds (`none`) or fails with a cause
(`some cause`), and for each source path either the file's full byte
content (`.ok`) or the cause of the `File::open` failure (`.error`). -/
structure Env where
  create : Option String
  fs : String → Except String (List Nat)

/-- The loop body of `export_project_zip` for one entry: start the
member, then write the payload.  `source_path` is examined first
(`if let Some(src) = entry.source_path`), then `content`
(`else if let Some(content) = entry.content`); with neither, nothing is
written.  On a source-open failure the formatted error is returned
together with the writer state already committed to disk. -/
def processEntry (env : Env) (w : ZipWriter) (e : ZipFileEntry) :
    Except (String × ZipWriter) ZipWriter :=
  let w := w.start_file e.path options
  match e.source_path with
  | some src =>
      match env.fs src with
      | Except.ok data => Except.ok (w.write_all data)
      | Except.error cause =>
          Except.error ("Failed to open source " ++ src ++ ": " ++ cause, w)
  | none =>
      match e.content with
      | some content => Except.ok (w.write_all (utf8Bytes content))
      | none => Except.ok w

/-- The `for entry in entries` loop: process entries in list order,
aborting at the first failure. -/
def processEntries (env : Env) (w : ZipWriter) :
    List ZipFileEntry → Except (String × ZipWriter) ZipWriter
  | [] => Except.ok w
  | e :: rest =>
      match processEntry env w e with
      | Except.ok w' => processEntries env w' rest
      | Except.error err => Except.error err

/-- The command `export_project_zip(zip_path, entries)`.  On success it
returns the finalized archive's members in emission order; on failure
it returns the formatted error string together with the members already
written to the partial destination file. -/
def export_project_zip (env : Env) (zip_path : String)
    (entries : List ZipFileEntry) :
    Except (String × List ZipMember) (List ZipMember) :=
  match env.create with
  | some cause => Except.error ("Failed to create zip file: " ++ cause, [])
  | none =>
      match processEntries env ZipWriter.new entries with
      | Except.ok w => Except.ok w.finish
      | Except.error (msg, w) => Except.error (msg, w.allMembers)

/-- The payload bytes the build writes for an entry when no failure
occurs: the source file's content when `source_path` is populated,
otherwise the UTF-8 bytes of `content`, otherwise nothing. -/
def payloadBytes (env : Env) (e : ZipFileEntry) : List Nat :=
  match e.source_path with
  | some src => (env.fs src).toOption.getD []
  | none =>
      match e.content with
      | some content => utf8Bytes content
      | none => []

/-- The archive member a successful build produces for an entry. -/
def memberOf (env : Env) (e : ZipFileEntry) : ZipMember :=
  { name := e.path, opts := options, data := payloadBytes env e }

/-- Whether processing an entry can succeed in environment `env`: true
unless it references a source file that fails to open. -/
def entryOk (env : Env) (e : ZipFileEntry) : Bool :=
  match e.source_path with
  | some src => (env.fs src).isOk
  | none => true

/-- The filesystem-and-writer environment of one build invocation with
every fallible step of the source represented.  Beyond `Env`'s
destination creation and source opening, it injects the remaining error
paths of `export_project_zip`: `zip.start_file` at the i-th loop
iteration (`startErr`), `std::io::copy` mid-copy at the i-th iteration
(`copyErr`), `zip.write_all` at the i-th iteration (`writeErr`),
`zip.finish` (`finishErr`), and the `spawn_blocking` join
(`joinErr`); `none` means the step succeeds, `some cause` that it fails
with that cause string. -/
structure WriterEnv where
  create : Option String
  fs : String → Except String (List Nat)
  startErr : Nat → Option String
  copyErr : Nat → Option String
  writeErr : Nat → Option String
  finishErr : Option String
  joinErr : Option String

/-- The `Env` fragment of a `WriterEnv`: destination creation and the
source filesystem. -/
def WriterEnv.base (env : WriterEnv) : Env :=
  { create := env.create, fs := env.fs }

/-- The source-file branch of the loop body with every error path
present: `File::open` ("Failed to open source {src}: {e}") and the
mid-copy failure of `std::io::copy` ("Failed to copy {src}: {e}"). -/
def copyStep (env : WriterEnv) (i : Nat) (w : ZipWriter) (e : ZipFileEntry)
    (src : String) : Except String ZipWriter :=
  match env.fs src with
  | Except.ok data =>
      match env.copyErr i with
      | some cause => Except.error ("Failed to copy " ++ src ++ ": " ++ cause)
      | none => Except.ok ((w.start_file e.path options).write_all data)
  | Except.error cause =>
      Except.error ("Failed to open source " ++ src ++ ": " ++ cause)

/-- The inline-content branch of the loop body with the `zip.write_all`
error path present ("Failed to write content for {path}: {e}"). -/
def writeStep (env : WriterEnv) (i : Nat) (w : ZipWriter) (e : ZipFileEntry)
    (content : String) : Except String ZipWriter :=
  match env.writeErr i with
  | some cause =>
      Except.error ("Failed to write content for " ++ e.path ++ ": " ++ cause)
  | none => Except.ok ((w.start_file e.path options).write_all (utf8Bytes content))

/-- The loop body of `export_project_zip` for the entry at loop index
`i`, with every error path of the source present: `zip.start_file`
("Zip error for {path}: {e}") first, then the source-file branch
(`copyStep`) or the inline-content branch (`writeStep`); with neither
payload, nothing is written and nothing can fail after the member
starts. -/
def processEntryFull (env : WriterEnv) (i : Nat) (w : ZipWriter)
    (e : ZipFileEntry) : Except String ZipWriter :=
  match env.startErr i with
  | some cause => Except.error ("Zip error for " ++ e.path ++ ": " ++ cause)
  | none =>
      match e.source_path with
      | some src => copyStep env i w e src
      | none =>
          match e.content with
          | some content => writeStep env i w e content
          | none => Except.ok (w.start_file e.path options)

/-- The `for entry in entries` loop with all error paths present,
carrying the loop index: entries are processed in list order, aborting
at the first failure. -/
def processEntriesFull (env : WriterEnv) :
    Nat → ZipWriter → List ZipFileEntry → Except String ZipWriter
  | _, w, [] => Except.ok w
  | i, w, e :: rest =>
      match processEntryFull env i w e with
      | Except.ok w' => processEntriesFull env (i + 1) w' rest
      | Except.error msg => Except.error msg

/-- The command `export_project_zip(zip_path, entries)` with every
fallible step of the source represented: the `spawn_blocking` join
("Task join error: {e}" takes precedence over the task's own result),
`File::create` ("Failed to create zip file: {e}"), the entry loop, and
`zip.finish` ("Failed to finalize zip: {e}").  On success it returns
the finalized archive's members in emission order. -/
def export_project_zip_full (env : WriterEnv) (zip_path : String)
    (entries : List ZipFileEntry) : Except String (List ZipMember) :=
  match env.joinErr with
  | some cause => Except.error ("Task join error: " ++ cause)
  | none =>
      match env.create with
      | some cause => Except.error ("Failed to create zip file: " ++ cause)
      | none =>
          match processEntriesFull env 0 ZipWriter.new entries with
          | Except.error msg => Except.error msg
          | Except.ok w =>
              match env.finishErr with
              | some cause => Except.error ("Failed to finalize zip: " ++ cause)
              | none => Except.ok w.finish

/-- Whether every step of the i-th loop iteration succeeds for entry
`e`: the member start, and then — depending on the payload branch taken
— the source open and the stream copy, or the inline write; a
payload-less entry has no fallible step after the member start. -/
def entryOkFull (env : WriterEnv) (i : Nat) (e : ZipFileEntry) : Bool :=
  (env.startErr i).isNone &&
    match e.source_path with
    | some src => (env.fs src).isOk && (env.copyErr i).isNone
    | none =>
        match e.content with
        | some _ => (env.writeErr i).isNone
        | none => true

/-- The members present in the destination file after a build attempt:
the finalized archive on success, the partial file's members on
failure. -/
def writtenMembers :
    Except (String × List ZipMember) (List ZipMember) → List ZipMember
  | Except.ok l => l
  | Except.error (_, l) => l

/-- A concrete test filesystem: `/tmp/b.bin` holds three bytes,
`/tmp/zero.bin` is a zero-byte file, and every other path fails to
open. -/
def testFs : String → Except String (List Nat) := fun s =>
  if s = "/tmp/b.bin" then Except.ok [7, 8, 9]
  else if s = "/tmp/zero.bin" then Except.ok []
  else Except.error "No such file or directory (os error 2)"

/-- A concrete test environment: destination creatable, `testFs` as the
filesystem. -/
def testEnv : Env := { create := none, fs := testFs }

/-! Basic lemmas about the writer and the loop body follow. -/

@[simp]
theorem ZipWriter.allMembers_start_file (w : ZipWriter) (name : String)
    (o : SimpleFileOptions) :
    (w.start_file name o).allMembers =
      w.allMembers ++ [{ name := name, opts := o, data := [] }] := by
  simp [ZipWriter.start_file, ZipWriter.allMembers]

/-- When an entry can be processed (`entryOk`), the loop body succeeds
and leaves the writer holding all previous members followed by the
freshly written member `memberOf env e`, still open. -/
theorem processEntry_ok (env : Env) (w : ZipWriter) (e : ZipFileEntry)
    (h : entryOk env e = true) :
    processEntry env w e =
      Except.ok { done := w.allMembers, current := some (memberOf env e) } := by
  cases hsp : e.source_path with
  | some src =>
      cases hfs : env.fs src with
      | ok data =>
          simp [processEntry, hsp, hfs, ZipWriter.start_file, ZipWriter.write_all,
            memberOf, payloadBytes, Except.toOption]
      | error c =>
          exfalso
          simp [entryOk, hsp, hfs, Except.isOk, Except.toBool] at h
  | none =>
      cases hc : e.content with
      | some content =>
          simp [processEntry, hsp, hc, ZipWriter.start_file, ZipWriter.write_all,
            memberOf, payloadBytes]
      | none =>
          simp [processEntry, hsp, hc, ZipWriter.start_file, memberOf, payloadBytes]

/-- When the entry references a source file that fails to open, the
loop body returns the formatted open error, the writer holding all
previous members followed by the started-but-empty member for this
entry. -/
theorem processEntry_error (env : Env) (w : ZipWriter) (e : ZipFileEntry)
    (src cause : String) (hsp : e.source_path = some src)
    (hfs : env.fs src = Except.error cause) :
    processEntry env w e =
      Except.error ("Failed to open source " ++ src ++ ": " ++ cause,
        { done := w.allMembers,
          current := some { name := e.path, opts := options, data := [] } }) := by
  unfold processEntry
  simp [hsp, hfs, ZipWriter.start_file]

/-- Success characterization of the entry loop: it succeeds exactly
when every entry is processable, and then the final writer holds the
initial members followed by one member per entry, in order. -/
theorem processEntries_ok (env : Env) (entries : List ZipFileEntry)
    (w w' : ZipWriter) (h : processEntries env w entries = Except.ok w') :
    (∀ e ∈ entries, entryOk env e = true) ∧
      w'.allMembers = w.allMembers ++ entries.map (memberOf env) := by
  induction entries generalizing w with
  | nil =>
      simp only [processEntries] at h
      cases h
      simp
  | cons e rest ih =>
      by_cases hok : entryOk env e = true
      · rw [processEntries, processEntry_ok env w e hok] at h
        obtain ⟨hall, hmem⟩ := ih _ h
        refine ⟨?_, ?_⟩
        · intro x hx
          rcases List.mem_cons.mp hx with hx | hx
          · exact hx ▸ hok
          · exact hall x hx
        · rw [hmem]
          simp [ZipWriter.allMembers]
      · exfalso
        have hsp : ∃ src, e.source_path = some src ∧ ¬ (env.fs src).isOk := by
          unfold entryOk at hok
          cases hs : e.source_path with
          | some src => rw [hs] at hok; exact ⟨src, rfl, by simpa using hok⟩
          | none => rw [hs] at hok; exact absurd rfl hok
        obtain ⟨src, hs, hfs⟩ := hsp
        cases hval : env.fs src with
        | ok data => rw [hval] at hfs; simp [Except.isOk, Except.toBool] at hfs
        | error cause =>
            rw [processEntries, processEntry_error env w e src cause hs hval] at h
            exact Except.noConfusion h

/-- Completeness of the entry loop: when every entry is processable the
loop succeeds, appending one member per entry, in order. -/
theorem processEntries_completes (env : Env) (entries : List ZipFileEntry) :
    ∀ w : ZipWriter, (∀ e ∈ entries, entryOk env e = true) →
    ∃ w', processEntries env w entries = Except.ok w' ∧
      w'.allMembers = w.allMembers ++ entries.map (memberOf env) := by
  induction entries with
  | nil => exact fun w _ => ⟨w, rfl, by simp⟩
  | cons e rest ih =>
      intro w h
      have hok : entryOk env e = true := h e (List.mem_cons_self e rest)
      obtain ⟨w', hw', hmem⟩ :=
        ih { done := w.allMembers, current := some (memberOf env e) }
          (fun x hx => h x (List.mem_cons_of_mem e hx))
      refine ⟨w', ?_, ?_⟩
      · rw [processEntries, processEntry_ok env w e hok]
        exact hw'
      · rw [hmem]
        simp [ZipWriter.allMembers]

/-- Localization of a source-open failure: if the entries before
position `j` are all processable and the entry at `j` references a
source file that fails to open, the loop returns the formatted open
error; at that point the destination holds exactly the members of the
entries before `j` followed by the started-but-empty member of entry
`j`, and no member of any later entry. -/
theorem processEntries_error_at (env : Env) (entries : List ZipFileEntry) :
    ∀ (j : ℕ) (hj : j < entries.length) (w : ZipWriter) (src cause : String),
      (∀ k (hk : k < j), entryOk env (entries.get ⟨k, lt_trans hk hj⟩) = true) →
      (entries.get ⟨j, hj⟩).source_path = some src →
      env.fs src = Except.error cause →
      processEntries env w entries =
        Except.error ("Failed to open source " ++ src ++ ": " ++ cause,
          { done := w.allMembers ++ (entries.take j).map (memberOf env),
            current := some { name := (entries.get ⟨j, hj⟩).path,
                              opts := options, data := [] } }) := by
  induction entries with
  | nil => intro j hj; exact absurd hj (Nat.not_lt_zero j)
  | cons e rest ih =>
      intro j hj w src cause hbefore hsp hfs
      cases j with
      | zero =>
          rw [processEntries, processEntry_error env w e src cause hsp hfs]
          simp
      | succ j' =>
          have hok : entryOk env e = true := hbefore 0 (Nat.succ_pos j')
          have hj' : j' < rest.length := Nat.lt_of_succ_lt_succ hj
          have hrec := ih j' hj'
            { done := w.allMembers, current := some (memberOf env e) } src cause
            (fun k hk => hbefore (k + 1) (Nat.succ_lt_succ hk)) hsp hfs
          rw [processEntries, processEntry_ok env w e hok]
          exact hrec.trans (by simp [ZipWriter.allMembers])

/-- Inversion of a successful build: the destination was creatable,
every entry was processable, and the finalized archive is exactly one
member per entry, in input order. -/
theorem export_ok_inv (env : Env) (p : String) (entries : List ZipFileEntry)
    (l : List ZipMember) (h : export_project_zip env p entries = Except.ok l) :
    env.create = none ∧ (∀ e ∈ entries, entryOk env e = true) ∧
      l = entries.map (memberOf env) := by
  unfold export_project_zip at h
  cases hc : env.create with
  | some cause => rw [hc] at h; exact Except.noConfusion h
  | none =>
      rw [hc] at h
      cases hw : processEntries env ZipWriter.new entries with
      | ok w =>
          rw [hw] at h
          have hl : w.finish = l := Except.ok.inj h
          obtain ⟨hall, hmem⟩ := processEntries_ok env entries ZipWriter.new w hw
          refine ⟨rfl, hall, ?_⟩
          rw [← hl]
          show w.allMembers = entries.map (memberOf env)
          rw [hmem]
          simp [ZipWriter.new, ZipWriter.allMembers]
      | error err =>
          rw [hw] at h
          obtain ⟨msg, wErr⟩ := err
          exact Except.noConfusion h

/-- Completeness of the build: when the destination is creatable and
every entry is processable, the build succeeds and the finalized
archive is exactly one member per entry, in input order. -/
theorem export_completes (env : Env) (p : String) (entries : List ZipFileEntry)
    (hc : env.create = none) (hok : ∀ e ∈ entries, entryOk env e = true) :
    export_project_zip env p entries = Except.ok (entries.map (memberOf env)) := by
  obtain ⟨w', hw', hmem⟩ := processEntries_completes env entries ZipWriter.new hok
  simp only [export_project_zip, hc, hw']
  show Except.ok w'.allMembers = _
  rw [hmem]
  simp [ZipWriter.new, ZipWriter.allMembers]

/-- Inversion of a failing entry loop: the failure happened at some
position `j`, and the destination then holds the initial members,
one member per entry before `j`, and the started-but-empty member of
entry `j` — nothing else. -/
theorem processEntries_error_inv (env : Env) (entries : List ZipFileEntry) :
    ∀ (w : ZipWriter) (msg : String) (w₂ : ZipWriter),
      processEntries env w entries = Except.error (msg, w₂) →
      ∃ (j : ℕ) (hj : j < entries.length),
        w₂.allMembers = w.allMembers ++ (entries.take j).map (memberOf env) ++
          [{ name := (entries.get ⟨j, hj⟩).path, opts := options, data := [] }] := by
  induction entries with
  | nil => intro w msg w₂ h; exact Except.noConfusion h
  | cons e rest ih =>
      intro w msg w₂ h
      by_cases hok : entryOk env e = true
      · rw [processEntries, processEntry_ok env w e hok] at h
        obtain ⟨j, hj, hmem⟩ := ih _ msg w₂ h
        refine ⟨j + 1, Nat.succ_lt_succ hj, ?_⟩
        rw [hmem]
        simp [ZipWriter.allMembers]
      · have hsp : ∃ src, e.source_path = some src ∧ ¬ (env.fs src).isOk := by
          unfold entryOk at hok
          cases hs : e.source_path with
          | some src => rw [hs] at hok; exact ⟨src, rfl, by simpa using hok⟩
          | none => rw [hs] at hok; exact absurd rfl hok
        obtain ⟨src, hs, hfs⟩ := hsp
        cases hval : env.fs src with
        | ok data => rw [hval] at hfs; simp [Except.isOk, Except.toBool] at hfs
        | error cause =>
            rw [processEntries, processEntry_error env w e src cause hs hval] at h
            have hpair := Except.error.inj h
            have hw₂ : w₂ =
                { done := w.allMembers,
                  current := some { name := e.path, opts := options, data := [] } } :=
              (Prod.ext_iff.mp hpair).2.symm
            refine ⟨0, Nat.succ_pos rest.length, ?_⟩
            rw [hw₂]
            simp [ZipWriter.allMembers]

/-- A source-open failure at position `j` (every earlier entry
processable) makes the build return the formatted open error; the
partial destination file then holds exactly the members of the entries
before `j` followed by the started-but-empty member of entry `j`, and
no member for any later entry. -/
theorem export_error_at (env : Env) (p : String) (entries : List ZipFileEntry)
    (j : ℕ) (hj : j < entries.length) (src cause : String)
    (hc : env.create = none)
    (hbefore : ∀ k (hk : k < j), entryOk env (entries.get ⟨k, lt_trans hk hj⟩) = true)
    (hsp : (entries.get ⟨j, hj⟩).source_path = some src)
    (hfs : env.fs src = Except.error cause) :
    export_project_zip env p entries =
      Except.error ("Failed to open source " ++ src ++ ": " ++ cause,
        (entries.take j).map (memberOf env) ++
          [{ name := (entries.get ⟨j, hj⟩).path, opts := options, data := [] }]) := by
  have hrec := processEntries_error_at env entries j hj ZipWriter.new src cause
    hbefore hsp hfs
  simp only [export_project_zip, hc, hrec]
  simp [ZipWriter.new, ZipWriter.allMembers]

/-- When every step of the i-th iteration succeeds, the full loop body
succeeds and leaves the writer holding all previous members followed by
the freshly written member, still open. -/
theorem processEntryFull_ok (env : WriterEnv) (i : Nat) (w : ZipWriter)
    (e : ZipFileEntry) (h : entryOkFull env i e = true) :
    processEntryFull env i w e =
      Except.ok { done := w.allMembers, current := some (memberOf env.base e) } := by
  unfold entryOkFull at h
  rw [Bool.and_eq_true] at h
  obtain ⟨h1, h2⟩ := h
  have hs : env.startErr i = none := Option.isNone_iff_eq_none.mp h1
  unfold processEntryFull
  rw [hs]
  cases hsp : e.source_path with
  | some src =>
      rw [hsp] at h2
      have h2' : ((env.fs src).isOk && (env.copyErr i).isNone) = true := h2
      show copyStep env i w e src = _
      unfold copyStep
      cases hfs : env.fs src with
      | ok data =>
          rw [hfs, Bool.and_eq_true] at h2'
          have hcp : env.copyErr i = none := Option.isNone_iff_eq_none.mp h2'.2
          simp [hcp, ZipWriter.start_file, ZipWriter.write_all, memberOf,
            payloadBytes, WriterEnv.base, hsp, hfs, Except.toOption]
      | error cause =>
          rw [hfs] at h2'
          simp [Except.isOk, Except.toBool] at h2'
  | none =>
      rw [hsp] at h2
      cases hc : e.content with
      | some content =>
          rw [hc] at h2
          have h2' : (env.writeErr i).isNone = true := h2
          have hwr : env.writeErr i = none := Option.isNone_iff_eq_none.mp h2'
          show writeStep env i w e content = _
          unfold writeStep
          simp [hwr, ZipWriter.start_file, ZipWriter.write_all, memberOf,
            payloadBytes, WriterEnv.base, hsp, hc]
      | none =>
          simp [hc, ZipWriter.start_file, memberOf, payloadBytes,
            WriterEnv.base, hsp]

/-- Inversion of a successful full loop body: every step of the
iteration succeeded and the writer holds the expected member. -/
theorem processEntryFull_ok_inv (env : WriterEnv) (i : Nat) (w : ZipWriter)
    (e : ZipFileEntry) (w' : ZipWriter)
    (h : processEntryFull env i w e = Except.ok w') :
    entryOkFull env i e = true ∧
      w' = { done := w.allMembers, current := some (memberOf env.base e) } := by
  unfold processEntryFull at h
  cases hs : env.startErr i with
  | some cause => rw [hs] at h; exact Except.noConfusion h
  | none =>
      rw [hs] at h
      cases hsp : e.source_path with
      | some src =>
          rw [hsp] at h
          have h' : copyStep env i w e src = Except.ok w' := h
          unfold copyStep at h'
          cases hfs : env.fs src with
          | ok data =>
              rw [hfs] at h'
              cases hcp : env.copyErr i with
              | some cause => rw [hcp] at h'; exact Except.noConfusion h'
              | none =>
                  rw [hcp] at h'
                  refine ⟨by simp [entryOkFull, hs, hsp, hfs, hcp,
                    Except.isOk, Except.toBool], ?_⟩
                  rw [← Except.ok.inj h']
                  simp [ZipWriter.start_file, ZipWriter.write_all, memberOf,
                    payloadBytes, WriterEnv.base, hsp, hfs, Except.toOption]
          | error cause => rw [hfs] at h'; exact Except.noConfusion h'
      | none =>
          rw [hsp] at h
          cases hc : e.content with
          | some content =>
              rw [hc] at h
              have h' : writeStep env i w e content = Except.ok w' := h
              unfold writeStep at h'
              cases hwr : env.writeErr i with
              | some cause => rw [hwr] at h'; exact Except.noConfusion h'
              | none =>
                  rw [hwr] at h'
                  refine ⟨by simp [entryOkFull, hs, hsp, hc, hwr], ?_⟩
                  rw [← Except.ok.inj h']
                  simp [ZipWriter.start_file, ZipWriter.write_all, memberOf,
                    payloadBytes, WriterEnv.base, hsp, hc]
          | none =>
              rw [hc] at h
              refine ⟨by simp [entryOkFull, hs, hsp, hc], ?_⟩
              rw [← Except.ok.inj h]
              simp [ZipWriter.start_file, memberOf, payloadBytes,
                WriterEnv.base, hsp, hc]

/-- Inversion of a successful full entry loop started at index `i`:
every step of every iteration succeeded, and the final writer holds the
initial members followed by one member per entry, in order. -/
theorem processEntriesFull_ok_inv (env : WriterEnv) (entries : List ZipFileEntry) :
    ∀ (i : Nat) (w w' : ZipWriter),
      processEntriesFull env i w entries = Except.ok w' →
      (∀ k (hk : k < entries.length),
          entryOkFull env (i + k) (entries.get ⟨k, hk⟩) = true) ∧
        w'.allMembers = w.allMembers ++ entries.map (memberOf env.base) := by
  induction entries with
  | nil =>
      intro i w w' h
      cases h
      exact ⟨fun k hk => absurd hk (Nat.not_lt_zero k), by simp⟩
  | cons e rest ih =>
      intro i w w' h
      rw [processEntriesFull] at h
      cases hpe : processEntryFull env i w e with
      | error msg => rw [hpe] at h; exact Except.noConfusion h
      | ok w1 =>
          rw [hpe] at h
          obtain ⟨hok1, hw1⟩ := processEntryFull_ok_inv env i w e w1 hpe
          obtain ⟨hall, hmem⟩ := ih (i + 1) w1 w' h
          constructor
          · intro k hk
            cases k with
            | zero => exact hok1
            | succ k' =>
                have hk' := hall k' (Nat.lt_of_succ_lt_succ hk)
                have hidx : i + 1 + k' = i + (k' + 1) := by omega
                rw [hidx] at hk'
                exact hk'
          · rw [hmem, hw1]
            simp [ZipWriter.allMembers]

/-- Completeness of the full entry loop: when every step of every
iteration succeeds, the loop succeeds, appending one member per entry,
in order. -/
theorem processEntriesFull_completes (env : WriterEnv) (entries : List ZipFileEntry) :
    ∀ (i : Nat) (w : ZipWriter),
      (∀ k (hk : k < entries.length),
          entryOkFull env (i + k) (entries.get ⟨k, hk⟩) = true) →
      ∃ w', processEntriesFull env i w entries = Except.ok w' ∧
        w'.allMembers = w.allMembers ++ entries.map (memberOf env.base) := by
  induction entries with
  | nil => exact fun i w _ => ⟨w, rfl, by simp⟩
  | cons e rest ih =>
      intro i w h
      have hok : entryOkFull env i e = true := h 0 (Nat.succ_pos rest.length)
      obtain ⟨w', hw', hmem⟩ := ih (i + 1)
        { done := w.allMembers, current := some (memberOf env.base e) }
        (fun k hk => by
          have hk' := h (k + 1) (Nat.succ_lt_succ hk)
          have hidx : i + (k + 1) = i + 1 + k := by omega
          rw [hidx] at hk'
          exact hk')
      refine ⟨w', ?_, ?_⟩
      · rw [processEntriesFull, processEntryFull_ok env i w e hok]
        exact hw'
      · rw [hmem]
        simp [ZipWriter.allMembers]

/-- When no writer-step fault is injected, the full loop body agrees
with the basic one (whose error also carries the partial writer
state). -/
theorem processEntryFull_no_faults (env : WriterEnv) (i : Nat) (w : ZipWriter)
    (e : ZipFileEntry) (hs : env.startErr i = none)
    (hcp : env.copyErr i = none) (hwr : env.writeErr i = none) :
    processEntryFull env i w e = (processEntry env.base w e).mapError Prod.fst := by
  unfold processEntryFull processEntry
  rw [hs]
  cases hsp : e.source_path with
  | some src =>
      cases hfs : env.fs src with
      | ok data =>
          simp [hsp, hfs, hcp, copyStep, WriterEnv.base, Except.mapError]
      | error cause =>
          simp [hsp, hfs, copyStep, WriterEnv.base, Except.mapError]
  | none =>
      cases hc : e.content with
      | some content =>
          simp [hsp, hc, hwr, writeStep, WriterEnv.base, Except.mapError]
      | none => simp [hsp, hc, WriterEnv.base, Except.mapError]

/-- When no writer-step fault is injected, the full entry loop agrees
with the basic one. -/
theorem processEntriesFull_no_faults (env : WriterEnv) (entries : List ZipFileEntry)
    (hs : ∀ i, env.startErr i = none) (hcp : ∀ i, env.copyErr i = none)
    (hwr : ∀ i, env.writeErr i = none) :
    ∀ (i : Nat) (w : ZipWriter),
      processEntriesFull env i w entries =
        (processEntries env.base w entries).mapError Prod.fst := by
  induction entries with
  | nil => intro i w; rfl
  | cons e rest ih =>
      intro i w
      rw [processEntriesFull, processEntries,
        processEntryFull_no_faults env i w e (hs i) (hcp i) (hwr i)]
      cases hpe : processEntry env.base w e with
      | ok w1 =>
          show processEntriesFull env (i + 1) w1 rest = _
          exact ih (i + 1) w1
      | error err => rfl

/-- When no writer-step fault is injected, the full build agrees with
the basic one, up to forgetting the partial members carried by the
basic model's errors. -/
theorem export_full_agrees (env : WriterEnv) (p : String)
    (entries : List ZipFileEntry)
    (hs : ∀ i, env.startErr i = none) (hcp : ∀ i, env.copyErr i = none)
    (hwr : ∀ i, env.writeErr i = none) (hf : env.finishErr = none)
    (hj : env.joinErr = none) :
    export_project_zip_full env p entries =
      (export_project_zip env.base p entries).mapError Prod.fst := by
  unfold export_project_zip_full export_project_zip
  rw [hj, processEntriesFull_no_faults env entries hs hcp hwr 0 ZipWriter.new]
  cases hc : env.create with
  | some cause => simp [WriterEnv.base, hc, Except.mapError]
  | none =>
      simp only [WriterEnv.base, hc]
      cases hw : processEntries { create := none, fs := env.fs }
          ZipWriter.new entries with
      | ok w => simp [hw, hf, Except.mapError]
      | error err =>
          obtain ⟨msg, w2⟩ := err
          simp [hw, Except.mapError]

/-! Claim theorems follow. -/

/-- C1: for every entry whose payload is a source-file reference, the
archive member produced for that entry by a successful
`export_project_zip` contains exactly the full byte content of the
referenced source file, for source files of any size (including
zero-byte files). -/
theorem C1_source_member_exact_bytes (env : Env) (p : String)
    (entries : List ZipFileEntry) (l : List ZipMember) (j : ℕ)
    (hj : j < entries.length) (src : String) (data : List Nat)
    (h : export_project_zip env p entries = Except.ok l)
    (hsp : (entries.get ⟨j, hj⟩).source_path = some src)
    (hd : env.fs src = Except.ok data) :
    ∃ hl : j < l.length,
      (l.get ⟨j, hl⟩).name = (entries.get ⟨j, hj⟩).path ∧
      (l.get ⟨j, hl⟩).data = data := by
  obtain ⟨-, -, hmem⟩ := export_ok_inv env p entries l h
  subst hmem
  have hl : j < (entries.map (memberOf env)).length := by simpa using hj
  have hsp' : entries[j].source_path = some src := hsp
  refine ⟨hl, ?_, ?_⟩
  · rw [List.get_map]
    rfl
  · rw [List.get_map]
    show (memberOf env entries[j]).data = data
    simp [memberOf, payloadBytes, hsp', hd, Except.toOption]

/-- C1 witness: a zero-byte source file yields a member with exactly
its (empty) content. -/
theorem C1_source_member_exact_bytes_witness :
    ∃ hl : 0 < (writtenMembers (export_project_zip testEnv "/tmp/out.zip"
        [{ path := "media/z.bin", content := none, source_path := some "/tmp/zero.bin" }])).length,
      ((writtenMembers (export_project_zip testEnv "/tmp/out.zip"
        [{ path := "media/z.bin", content := none, source_path := some "/tmp/zero.bin" }])).get
          ⟨0, hl⟩).name = "media/z.bin" ∧
      ((writtenMembers (export_project_zip testEnv "/tmp/out.zip"
        [{ path := "media/z.bin", content := none, source_path := some "/tmp/zero.bin" }])).get
          ⟨0, hl⟩).data = [] :=
  C1_source_member_exact_bytes testEnv "/tmp/out.zip"
    [{ path := "media/z.bin", content := none, source_path := some "/tmp/zero.bin" }]
    (writtenMembers (export_project_zip testEnv "/tmp/out.zip"
        [{ path := "media/z.bin", content := none, source_path := some "/tmp/zero.bin" }]))
    0 (by decide) "/tmp/zero.bin" [] rfl rfl rfl

/-- C2 counterexample: a concrete successful build whose single member
carries unix permissions 0o755 = 493, not the owner/group/other
execute+read+write mode 0o777 = 511 the claim asserts. -/
theorem C2_counterexample_mode_not_777 :
    ((writtenMembers (export_project_zip testEnv "/tmp/out.zip"
        [{ path := "a.txt", content := some "hello", source_path := none }])).map
          (fun m => m.opts.unix_permissions) = [some 0o755]) ∧
    ¬ ((writtenMembers (export_project_zip testEnv "/tmp/out.zip"
        [{ path := "a.txt", content := some "hello", source_path := none }])).map
          (fun m => m.opts.unix_permissions) = [some 0o777]) := by
  exact ⟨rfl, by decide⟩

/-- C2 (amended): every archive member — in the finalized archive of a
successful build and in the partial output of a failed one — is written
with the fixed options: store-only (no) compression and unix mode 0o755
(owner read+write+execute, group and other read+execute). -/
theorem C2_member_fixed_options (env : Env) (p : String)
    (entries : List ZipFileEntry) (m : ZipMember)
    (h : m ∈ writtenMembers (export_project_zip env p entries)) :
    m.opts.compression_method = CompressionMethod.Stored ∧
      m.opts.unix_permissions = some 0o755 := by
  suffices hopts : m.opts = options by
    rw [hopts]; exact ⟨rfl, rfl⟩
  unfold export_project_zip at h
  cases hc : env.create with
  | some cause =>
      rw [hc] at h
      simp [writtenMembers] at h
  | none =>
      rw [hc] at h
      cases hw : processEntries env ZipWriter.new entries with
      | ok w =>
          rw [hw] at h
          obtain ⟨-, hmem⟩ := processEntries_ok env entries ZipWriter.new w hw
          have hmm : m ∈ w.allMembers := h
          rw [hmem] at hmm
          simp [ZipWriter.new, ZipWriter.allMembers, memberOf] at hmm
          obtain ⟨e, -, he⟩ := hmm
          rw [← he]
      | error err =>
          obtain ⟨msg, w₂⟩ := err
          rw [hw] at h
          have hmm : m ∈ w₂.allMembers := h
          obtain ⟨j, hj, hmem⟩ :=
            processEntries_error_inv env entries ZipWriter.new msg w₂ hw
          rw [hmem] at hmm
          rcases List.mem_append.mp hmm with h1 | h2
          · rcases List.mem_append.mp h1 with h0 | htk
            · simp [ZipWriter.new, ZipWriter.allMembers] at h0
            · obtain ⟨e, -, he⟩ := List.mem_map.mp htk
              rw [← he]
              rfl
          · rw [List.mem_singleton.mp h2]

/-- C2 witness: concrete member of a concrete build, with Stored
compression and mode 0o755. -/
theorem C2_member_fixed_options_witness :
    ({ name := "a.txt", opts := options, data := utf8Bytes "hello" } :
        ZipMember).opts.compression_method = CompressionMethod.Stored ∧
    ({ name := "a.txt", opts := options, data := utf8Bytes "hello" } :
        ZipMember).opts.unix_permissions = some 0o755 :=
  C2_member_fixed_options testEnv "/tmp/out.zip"
    [{ path := "a.txt", content := some "hello", source_path := none }]
    { name := "a.txt", opts := options, data := utf8Bytes "hello" }
    (by decide)

/-- C3 counterexample: an entry supplying both an inline content
payload and a source_path payload does not produce a zero-byte member —
its member receives the source file's three bytes. -/
theorem C3_counterexample_not_empty_member :
    export_project_zip testEnv "/tmp/out.zip"
        [{ path := "both.txt", content := some "hello",
           source_path := some "/tmp/b.bin" }] =
      Except.ok [{ name := "both.txt", opts := options, data := [7, 8, 9] }] ∧
    ([7, 8, 9] : List Nat) ≠ [] := by
  exact ⟨rfl, by decide⟩

/-- C3 (amended): for every entry that supplies both an inline content
payload and a source_path payload, the build (which performs no
validation) takes the source-path branch: the entry's archive member
receives the referenced source file's bytes, not zero bytes. -/
theorem C3_both_payloads_source_branch (env : Env) (p : String)
    (entries : List ZipFileEntry) (l : List ZipMember) (j : ℕ)
    (hj : j < entries.length) (src text : String) (data : List Nat)
    (h : export_project_zip env p entries = Except.ok l)
    (hsp : (entries.get ⟨j, hj⟩).source_path = some src)
    (hct : (entries.get ⟨j, hj⟩).content = some text)
    (hd : env.fs src = Except.ok data) :
    ∃ hl : j < l.length, (l.get ⟨j, hl⟩).data = data := by
  obtain ⟨-, -, hmem⟩ := export_ok_inv env p entries l h
  subst hmem
  have hl : j < (entries.map (memberOf env)).length := by simpa using hj
  have hsp' : entries[j].source_path = some src := hsp
  refine ⟨hl, ?_⟩
  rw [List.get_map]
  show (memberOf env entries[j]).data = data
  simp [memberOf, payloadBytes, hsp', hd, Except.toOption]

/-- C3 witness: concrete both-payload entry whose member holds the
source file's bytes. -/
theorem C3_both_payloads_source_branch_witness :
    ∃ hl : 0 < (writtenMembers (export_project_zip testEnv "/tmp/out.zip"
        [{ path := "both.txt", content := some "hello",
           source_path := some "/tmp/b.bin" }])).length,
      ((writtenMembers (export_project_zip testEnv "/tmp/out.zip"
        [{ path := "both.txt", content := some "hello",
           source_path := some "/tmp/b.bin" }])).get ⟨0, hl⟩).data = [7, 8, 9] :=
  C3_both_payloads_source_branch testEnv "/tmp/out.zip"
    [{ path := "both.txt", content := some "hello",
       source_path := some "/tmp/b.bin" }]
    (writtenMembers (export_project_zip testEnv "/tmp/out.zip"
        [{ path := "both.txt", content := some "hello",
           source_path := some "/tmp/b.bin" }]))
    0 (by decide) "/tmp/b.bin" "hello" [7, 8, 9] rfl rfl rfl rfl

/-- C4: for every entry list in which each entry has only an
inline-text payload, a successful build produces an archive with
exactly one member per entry, in input order, whose bytes equal the
UTF-8 encoding of that entry's text exactly. -/
theorem C4_inline_text_archive (env : Env) (p : String)
    (entries : List ZipFileEntry) (l : List ZipMember)
    (hsp : ∀ e ∈ entries, e.source_path = none)
    (h : export_project_zip env p entries = Except.ok l) :
    l.length = entries.length ∧
    ∀ (j : ℕ) (hj : j < entries.length) (text : String),
      (entries.get ⟨j, hj⟩).content = some text →
      ∃ hl : j < l.length,
        (l.get ⟨j, hl⟩).name = (entries.get ⟨j, hj⟩).path ∧
        (l.get ⟨j, hl⟩).data = utf8Bytes text := by
  obtain ⟨-, -, hmem⟩ := export_ok_inv env p entries l h
  subst hmem
  refine ⟨by simp, ?_⟩
  intro j hj text hct
  have hl : j < (entries.map (memberOf env)).length := by simpa using hj
  have hsp' : entries[j].source_path = none :=
    hsp (entries.get ⟨j, hj⟩) (entries.get_mem j hj)
  have hct' : entries[j].content = some text := hct
  refine ⟨hl, ?_, ?_⟩
  · rw [List.get_map]
    rfl
  · rw [List.get_map]
    show (memberOf env entries[j]).data = utf8Bytes text
    simp [memberOf, payloadBytes, hsp', hct']

/-- C4 witness: two inline-text entries give two members with exactly
the UTF-8 bytes of their texts. -/
theorem C4_inline_text_archive_witness :
    (writtenMembers (export_project_zip testEnv "/tmp/out.zip"
        [{ path := "a.txt", content := some "hello", source_path := none },
         { path := "b.txt", content := some "héllo", source_path := none }])).length =
      ([{ path := "a.txt", content := some "hello", source_path := none },
        { path := "b.txt", content := some "héllo", source_path := none }] :
          List ZipFileEntry).length ∧
    ∀ (j : ℕ)
      (hj : j < ([{ path := "a.txt", content := some "hello", source_path := none },
        { path := "b.txt", content := some "héllo", source_path := none }] :
          List ZipFileEntry).length) (text : String),
      (([{ path := "a.txt", content := some "hello", source_path := none },
        { path := "b.txt", content := some "héllo", source_path := none }] :
          List ZipFileEntry).get ⟨j, hj⟩).content = some text →
      ∃ hl : j < (writtenMembers (export_project_zip testEnv "/tmp/out.zip"
        [{ path := "a.txt", content := some "hello", source_path := none },
         { path := "b.txt", content := some "héllo", source_path := none }])).length,
        ((writtenMembers (export_project_zip testEnv "/tmp/out.zip"
          [{ path := "a.txt", content := some "hello", source_path := none },
           { path := "b.txt", content := some "héllo", source_path := none }])).get
            ⟨j, hl⟩).name =
          (([{ path := "a.txt", content := some "hello", source_path := none },
            { path := "b.txt", content := some "héllo", source_path := none }] :
              List ZipFileEntry).get ⟨j, hj⟩).path ∧
        ((writtenMembers (export_project_zip testEnv "/tmp/out.zip"
          [{ path := "a.txt", content := some "hello", source_path := none },
           { path := "b.txt", content := some "héllo", source_path := none }])).get
            ⟨j, hl⟩).data = utf8Bytes text :=
  C4_inline_text_archive testEnv "/tmp/out.zip"
    [{ path := "a.txt", content := some "hello", source_path := none },
     { path := "b.txt", content := some "héllo", source_path := none }]
    (writtenMembers (export_project_zip testEnv "/tmp/out.zip"
        [{ path := "a.txt", content := some "hello", source_path := none },
         { path := "b.txt", content := some "héllo", source_path := none }]))
    (by decide) rfl

/-- C5: for every entry list, the order of members in the resulting
archive equals the order of entries in the input list, even when the
archive_path values are not lexicographically sorted. -/
theorem C5_member_order_matches_input (env : Env) (p : String)
    (entries : List ZipFileEntry) (l : List ZipMember)
    (h : export_project_zip env p entries = Except.ok l) :
    l.map (fun m => m.name) = entries.map (fun e => e.path) := by
  obtain ⟨-, -, hmem⟩ := export_ok_inv env p entries l h
  subst hmem
  simp [List.map_map, Function.comp, memberOf]

/-- C5 witness: two entries with non-lexicographically-sorted paths
keep input order in the archive. -/
theorem C5_member_order_matches_input_witness :
    (writtenMembers (export_project_zip testEnv "/tmp/out.zip"
        [{ path := "z.txt", content := some "zz", source_path := none },
         { path := "a.txt", content := some "aa", source_path := none }])).map
      (fun m => m.name) =
    ([{ path := "z.txt", content := some "zz", source_path := none },
      { path := "a.txt", content := some "aa", source_path := none }] :
        List ZipFileEntry).map (fun e => e.path) :=
  C5_member_order_matches_input testEnv "/tmp/out.zip"
    [{ path := "z.txt", content := some "zz", source_path := none },
     { path := "a.txt", content := some "aa", source_path := none }]
    (writtenMembers (export_project_zip testEnv "/tmp/out.zip"
        [{ path := "z.txt", content := some "zz", source_path := none },
         { path := "a.txt", content := some "aa", source_path := none }]))
    rfl

/-- C6: if opening the source file of some entry fails, the build
returns the source-open error for that entry and processes no later
entry — the (invalid) destination then holds exactly one member per
earlier entry plus the started-but-empty member of the failing entry
(j + 1 members in total), so no archive member for any entry after the
failing one is written. -/
theorem C6_source_open_failure_aborts (env : Env) (p : String)
    (entries : List ZipFileEntry) (j : ℕ) (hj : j < entries.length)
    (src cause : String) (hc : env.create = none)
    (hbefore : ∀ k (hk : k < j),
      entryOk env (entries.get ⟨k, lt_trans hk hj⟩) = true)
    (hsp : (entries.get ⟨j, hj⟩).source_path = some src)
    (hfs : env.fs src = Except.error cause) :
    export_project_zip env p entries =
      Except.error ("Failed to open source " ++ src ++ ": " ++ cause,
        (entries.take j).map (memberOf env) ++
          [{ name := (entries.get ⟨j, hj⟩).path, opts := options, data := [] }]) ∧
    ((entries.take j).map (memberOf env) ++
        ([{ name := (entries.get ⟨j, hj⟩).path, opts := options, data := [] }] :
          List ZipMember)).length = j + 1 := by
  refine ⟨export_error_at env p entries j hj src cause hc hbefore hsp hfs, ?_⟩
  simp
  omega

/-- C6 witness: of three entries the second references a missing file;
the build returns the open error and only the first member plus the
empty started second member exist. -/
theorem C6_source_open_failure_aborts_witness :
    export_project_zip testEnv "/tmp/out.zip"
        [{ path := "a.txt", content := some "hi", source_path := none },
         { path := "b.bin", content := none, source_path := some "/missing" },
         { path := "c.txt", content := some "later", source_path := none }] =
      Except.error
        ("Failed to open source /missing: No such file or directory (os error 2)",
         [{ name := "a.txt", opts := options, data := utf8Bytes "hi" },
          { name := "b.bin", opts := options, data := [] }]) ∧
    ([{ name := "a.txt", opts := options, data := utf8Bytes "hi" },
      { name := "b.bin", opts := options, data := [] }] :
        List ZipMember).length = 1 + 1 :=
  C6_source_open_failure_aborts testEnv "/tmp/out.zip"
    [{ path := "a.txt", content := some "hi", source_path := none },
     { path := "b.bin", content := none, source_path := some "/missing" },
     { path := "c.txt", content := some "later", source_path := none }]
    1 (by decide) "/missing" "No such file or directory (os error 2)"
    rfl (by decide) rfl rfl

/-- C7: export_project_zip returns success if and only if every step
succeeded — the dispatch join, the destination creation, for every
entry the member start and the full payload write (source open and
stream copy, or inline write), and the archive finalization — and
exactly then the finalized archive with every entry's member, in input
order, is produced. -/
theorem C7_ok_iff_all_steps (env : WriterEnv) (p : String)
    (entries : List ZipFileEntry) :
    (∃ l, export_project_zip_full env p entries = Except.ok l ∧
        l = entries.map (memberOf env.base)) ↔
      (env.joinErr = none ∧ env.create = none ∧ env.finishErr = none ∧
        ∀ k (hk : k < entries.length),
          entryOkFull env k (entries.get ⟨k, hk⟩) = true) := by
  constructor
  · rintro ⟨l, h, -⟩
    unfold export_project_zip_full at h
    cases hj : env.joinErr with
    | some cause => rw [hj] at h; exact Except.noConfusion h
    | none =>
        rw [hj] at h
        cases hc : env.create with
        | some cause => rw [hc] at h; exact Except.noConfusion h
        | none =>
            rw [hc] at h
            cases hw : processEntriesFull env 0 ZipWriter.new entries with
            | error msg => rw [hw] at h; exact Except.noConfusion h
            | ok w =>
                rw [hw] at h
                cases hf : env.finishErr with
                | some cause => rw [hf] at h; exact Except.noConfusion h
                | none =>
                    obtain ⟨hall, -⟩ :=
                      processEntriesFull_ok_inv env entries 0 ZipWriter.new w hw
                    exact ⟨rfl, rfl, rfl, fun k hk => by simpa using hall k hk⟩
  · rintro ⟨hj, hc, hf, hall⟩
    obtain ⟨w', hw', hmem⟩ := processEntriesFull_completes env entries 0
      ZipWriter.new (fun k hk => by simpa using hall k hk)
    refine ⟨entries.map (memberOf env.base), ?_, rfl⟩
    simp only [export_project_zip_full, hj, hc, hw', hf]
    show Except.ok w'.allMembers = _
    rw [hmem]
    simp [ZipWriter.new, ZipWriter.allMembers]

/-- C8: for every entry that supplies neither an inline content payload
nor a source_path payload, the build does not fail on it: the loop body
succeeds, producing an empty (zero-byte) archive member for that entry,
and the loop continues with the remaining entries. -/
theorem C8_no_payload_empty_member (env : Env) (e : ZipFileEntry)
    (w : ZipWriter) (rest : List ZipFileEntry)
    (h1 : e.source_path = none) (h2 : e.content = none) :
    entryOk env e = true ∧
    memberOf env e = { name := e.path, opts := options, data := [] } ∧
    processEntries env w (e :: rest) =
      processEntries env
        { done := w.allMembers,
          current := some { name := e.path, opts := options, data := [] } }
        rest := by
  refine ⟨by simp [entryOk, h1], by simp [memberOf, payloadBytes, h1, h2], ?_⟩
  have hpe : processEntry env w e =
      Except.ok { done := w.allMembers,
                  current := some { name := e.path, opts := options, data := [] } } := by
    simp [processEntry, h1, h2, ZipWriter.start_file]
  rw [processEntries, hpe]

/-- C8 witness: a concrete payload-less entry is accepted, yields an
empty member and processing continues with the remaining entry. -/
theorem C8_no_payload_empty_member_witness :
    entryOk testEnv { path := "empty.txt", content := none, source_path := none } = true ∧
    memberOf testEnv { path := "empty.txt", content := none, source_path := none } =
      { name := "empty.txt", opts := options, data := [] } ∧
    processEntries testEnv ZipWriter.new
        [{ path := "empty.txt", content := none, source_path := none },
         { path := "c.txt", content := some "x", source_path := none }] =
      processEntries testEnv
        { done := ZipWriter.new.allMembers,
          current := some { name := "empty.txt", opts := options, data := [] } }
        [{ path := "c.txt", content := some "x", source_path := none }] :=
  C8_no_payload_empty_member testEnv
    { path := "empty.txt", content := none, source_path := none }
    ZipWriter.new
    [{ path := "c.txt", content := some "x", source_path := none }]
    rfl rfl

/-- C9: for every entry list containing two entries with the same
archive_path value, a successful build writes both members: no
deduplication, merge, or overwrite occurs, and the later entry's member
sits at its own later position, appended after the earlier one. -/
theorem C9_duplicate_paths_both_written (env : Env) (p : String)
    (entries : List ZipFileEntry) (l : List ZipMember) (i j : ℕ)
    (hi : i < entries.length) (hj : j < entries.length) (hij : i < j)
    (hdup : (entries.get ⟨i, hi⟩).path = (entries.get ⟨j, hj⟩).path)
    (h : export_project_zip env p entries = Except.ok l) :
    l.length = entries.length ∧
    ∃ (hil : i < l.length) (hjl : j < l.length),
      l.get ⟨i, hil⟩ = memberOf env (entries.get ⟨i, hi⟩) ∧
      l.get ⟨j, hjl⟩ = memberOf env (entries.get ⟨j, hj⟩) := by
  obtain ⟨-, -, hmem⟩ := export_ok_inv env p entries l h
  subst hmem
  refine ⟨by simp, by simpa using hi, by simpa using hj, ?_, ?_⟩
  · rw [List.get_map]
  · rw [List.get_map]

/-- C9 witness: two entries named dup.txt both end up in the archive,
in input order, with their own contents. -/
theorem C9_duplicate_paths_both_written_witness :
    (writtenMembers (export_project_zip testEnv "/tmp/out.zip"
        [{ path := "dup.txt", content := some "one", source_path := none },
         { path := "dup.txt", content := some "two", source_path := none }])).length =
      ([{ path := "dup.txt", content := some "one", source_path := none },
        { path := "dup.txt", content := some "two", source_path := none }] :
          List ZipFileEntry).length ∧
    ∃ (hil : 0 < (writtenMembers (export_project_zip testEnv "/tmp/out.zip"
        [{ path := "dup.txt", content := some "one", source_path := none },
         { path := "dup.txt", content := some "two", source_path := none }])).length)
      (hjl : 1 < (writtenMembers (export_project_zip testEnv "/tmp/out.zip"
        [{ path := "dup.txt", content := some "one", source_path := none },
         { path := "dup.txt", content := some "two", source_path := none }])).length),
      (writtenMembers (export_project_zip testEnv "/tmp/out.zip"
        [{ path := "dup.txt", content := some "one", source_path := none },
         { path := "dup.txt", content := some "two", source_path := none }])).get
          ⟨0, hil⟩ =
        memberOf testEnv { path := "dup.txt", content := some "one", source_path := none } ∧
      (writtenMembers (export_project_zip testEnv "/tmp/out.zip"
        [{ path := "dup.txt", content := some "one", source_path := none },
         { path := "dup.txt", content := some "two", source_path := none }])).get
          ⟨1, hjl⟩ =
        memberOf testEnv { path := "dup.txt", content := some "two", source_path := none } :=
  C9_duplicate_paths_both_written testEnv "/tmp/out.zip"
    [{ path := "dup.txt", content := some "one", source_path := none },
     { path := "dup.txt", content := some "two", source_path := none }]
    (writtenMembers (export_project_zip testEnv "/tmp/out.zip"
        [{ path := "dup.txt", content := some "one", source_path := none },
         { path := "dup.txt", content := some "two", source_path := none }]))
    0 1 (by decide) (by decide) (by decide) rfl rfl

/-- C10: when an entry supplies both a source_path and inline content,
the source_path payload takes precedence — the loop body behaves
exactly as if the inline content were absent, and the member's bytes
are the source file's content; the inline content is ignored
entirely. -/
theorem C10_source_path_precedence (env : Env) (w : ZipWriter)
    (e : ZipFileEntry) (src : String) (data : List Nat)
    (hsp : e.source_path = some src)
    (hd : env.fs src = Except.ok data) :
    processEntry env w e = processEntry env w { e with content := none } ∧
    processEntry env w e =
      Except.ok { done := w.allMembers,
                  current := some { name := e.path, opts := options, data := data } } := by
  constructor
  · simp [processEntry, hsp]
  · simp [processEntry, hsp, hd, ZipWriter.start_file, ZipWriter.write_all]

/-- C10 witness: a concrete both-payload entry is processed exactly as
its content-less variant, the member holding the source file's
bytes. -/
theorem C10_source_path_precedence_witness :
    processEntry testEnv ZipWriter.new
        { path := "both.txt", content := some "hello",
          source_path := some "/tmp/b.bin" } =
      processEntry testEnv ZipWriter.new
        { path := "both.txt", content := none,
          source_path := some "/tmp/b.bin" } ∧
    processEntry testEnv ZipWriter.new
        { path := "both.txt", content := some "hello",
          source_path := some "/tmp/b.bin" } =
      Except.ok { done := ZipWriter.new.allMembers,
                  current := some { name := "both.txt", opts := options,
                                    data := [7, 8, 9] } } :=
  C10_source_path_precedence testEnv ZipWriter.new
    { path := "both.txt", content := some "hello",
      source_path := some "/tmp/b.bin" }
    "/tmp/b.bin" [7, 8, 9] rfl rfl

end SyncDesktopPoc
